import Mathlib

/-!
# Verification of `scripts/build_feed.py`

A shallow embedding of the feed-normalisation script: entry-number
extraction (the four regular-expression patterns are modelled as
deterministic left-to-right scanners, which is faithful because in each
pattern the character classes `\s` and `\d` are disjoint, so the regex
engine never backtracks except in the word-boundary analysis spelled out
at `pBareAt`), the per-entry and feed-level normalisation, and the
fetch/retry loop.  Character classes (`\s`, `\d`, `\w`, IGNORECASE) are
modelled over ASCII.
-/

set_option autoImplicit false

/-- Python `\s` (ASCII model): space, tab, newline, carriage return,
vertical tab, form feed. -/
def isSpaceC (c : Char) : Bool :=
  c == ' ' || c == '\t' || c == '\n' || c == '\r' || c == '\x0b' || c == '\x0c'

/-- Python `\d` (ASCII model). -/
def isDigitC (c : Char) : Bool := c.isDigit

/-- Python `\w` (ASCII model): alphanumeric or underscore. -/
def isWordC (c : Char) : Bool := c.isAlphanum || c == '_'

/-- The literal `entry`, lower-case; matched case-insensitively. -/
def entryLit : List Char := ['e', 'n', 't', 'r', 'y']

/-- Match a lower-case literal case-insensitively at the head of the
input, returning the remainder on success. -/
def matchLitCI : List Char → List Char → Option (List Char)
  | [], s => some s
  | _ :: _, [] => none
  | l :: ls, c :: cs => if c.toLower == l then matchLitCI ls cs else none

/-- Greedy `\s*`. -/
def skipWs (s : List Char) : List Char := s.dropWhile (fun c => isSpaceC c)

/-- Greedy `\d{0,n}`: the captured digits and the remainder. -/
def takeDigits : Nat → List Char → List Char × List Char
  | 0, s => ([], s)
  | _ + 1, [] => ([], [])
  | n + 1, c :: cs =>
    if isDigitC c then
      let p := takeDigits n cs
      (c :: p.1, p.2)
    else ([], c :: cs)

/-- Greedy `(\d{1,6})` with nothing after the group: fail when there is
no digit, else capture up to six digits. -/
def digitGroup (s : List Char) : Option (List Char) :=
  if (takeDigits 6 s).1.isEmpty then none else some (takeDigits 6 s).1

/-- Greedy `(\d{1,6})\b`: additionally require a word boundary after the
group.  Backtracking cannot help: shrinking the greedy group exposes a
digit, a word character, so the match succeeds exactly when the maximal
digit run has length 1..6 and is followed by a non-word character or the
end. -/
def digitGroupB (s : List Char) : Option (List Char) :=
  if (takeDigits 6 s).1.isEmpty then none
  else
    match (takeDigits 6 s).2 with
    | [] => some (takeDigits 6 s).1
    | c :: _ => if isWordC c then none else some (takeDigits 6 s).1

/-- `/entry\s*(\d{1,6})` anchored at the current position (IGNORECASE):
returns the captured digit group. -/
def pSlashAt : List Char → Option (List Char)
  | '/' :: rest =>
    match matchLitCI entryLit rest with
    | none => none
    | some r1 => digitGroup (skipWs r1)
  | _ => none

/-- `Entry\s*#\s*(\d{1,6})` anchored at the current position (IGNORECASE). -/
def pTitleAt (s : List Char) : Option (List Char) :=
  match matchLitCI entryLit s with
  | none => none
  | some r1 =>
    match skipWs r1 with
    | '#' :: r2 => digitGroup (skipWs r2)
    | _ => none

/-- `#entry\s*(\d{1,6})` anchored at the current position (IGNORECASE). -/
def pHashAt : List Char → Option (List Char)
  | '#' :: rest =>
    match matchLitCI entryLit rest with
    | none => none
    | some r1 => digitGroup (skipWs r1)
  | _ => none

/-- `\bentry\s*(\d{1,6})\b` anchored at the current position (IGNORECASE).
`prev` is the character before the position (`none` at the start of the
string).  Since `e` is a word character, the leading `\b` holds exactly
when `prev` is absent or not a word character.  The trailing `\b` after a
greedy `\d{1,6}` succeeds exactly when the whole maximal digit run has
length 1..6 and the character after the run is absent or not a word
character: shrinking the group in backtracking always exposes a digit,
which is a word character, so no shorter group can satisfy the boundary. -/
def pBareAt (prev : Option Char) (s : List Char) : Option (List Char) :=
  if (match prev with
      | none => true
      | some c => !isWordC c) then
    match matchLitCI entryLit s with
    | none => none
    | some r1 => digitGroupB (skipWs r1)
  else none

/-- `re.search`: try the anchored matcher at each position from the left,
carrying the previous character for word-boundary tests. -/
def scanAux (f : Option Char → List Char → Option (List Char)) :
    Option Char → List Char → Option (List Char)
  | prev, [] => f prev []
  | prev, c :: cs =>
    match f prev (c :: cs) with
    | some g => some g
    | none => scanAux f (some c) cs

/-- `re.search` of pattern 1, `/entry\s*(\d{1,6})`. -/
def searchSlash (s : List Char) : Option (List Char) :=
  scanAux (fun _ t => pSlashAt t) none s

/-- `re.search` of pattern 2, `Entry\s*#\s*(\d{1,6})`. -/
def searchTitle (s : List Char) : Option (List Char) :=
  scanAux (fun _ t => pTitleAt t) none s

/-- `re.search` of pattern 3, `#entry\s*(\d{1,6})`. -/
def searchHash (s : List Char) : Option (List Char) :=
  scanAux (fun _ t => pHashAt t) none s

/-- `re.search` of pattern 4, `\bentry\s*(\d{1,6})\b`. -/
def searchBare (s : List Char) : Option (List Char) :=
  scanAux pBareAt none s

/-- The inner loop of `extract_entry_number`: the four patterns tried in
order against one candidate text, returning the first captured group. -/
def tryPatterns (s : List Char) : Option (List Char) :=
  match searchSlash s with
  | some g => some g
  | none =>
    match searchTitle s with
    | some g => some g
    | none =>
      match searchHash s with
      | some g => some g
      | none => searchBare s

/-- One `atom:link` element: the `href`, `rel` and `type` attributes,
each possibly absent. -/
structure Link where
  href : Option String
  rel : Option String
  type : Option String
  deriving DecidableEq, Repr

/-- One `atom:entry` element.  `id`, `title`, `published` and `updated`
model the text of the first child element of that tag: `none` means the
element is absent, `some ""` a present element with empty (Python
`None`) text — the two are distinguished by the code.  `links` is the
ordered list of `atom:link` children. -/
structure Entry where
  id : Option String
  title : Option String
  published : Option String
  updated : Option String
  links : List Link
  deriving DecidableEq, Repr

/-- The feed root: its title text, feed-level `atom:link` children,
feed-level `updated` text, and entries.  The position of the injected
self link among the other children (after the title when present, else
first) is abstracted to prepending to `feedLinks`; no claim depends on
the position. -/
structure Feed where
  title : Option String
  feedLinks : List Link
  updated : Option String
  entries : List Entry
  deriving DecidableEq, Repr

/-- The configuration read from the environment: `DOCKET_ID`,
`DOCKET_SLUG`, `FEED_SELF_URL` (absent when the variable is unset). -/
structure Config where
  docketId : Nat
  docketSlug : String
  selfURL : Option String
  deriving DecidableEq, Repr

/-- `DOCKET_HTML_URL`. -/
def docketHTML (cfg : Config) : String :=
  "https://www.courtlistener.com/docket/" ++ toString cfg.docketId ++ "/"
    ++ cfg.docketSlug ++ "/"

/-- The candidate texts of `extract_entry_number`: the id text when
truthy, the title text when truthy, then every link `href` when truthy,
in document order. -/
def truthyOpt : Option String → List String
  | some t => if t == "" then [] else [t]
  | none => []

/-- Candidate list of `extract_entry_number`. -/
def candidates (e : Entry) : List String :=
  truthyOpt e.id ++ truthyOpt e.title
    ++ e.links.filterMap (fun l =>
      match l.href with
      | some h => if h == "" then none else some h
      | none => none)

/-- Outer loop of `extract_entry_number`: candidates in order, all four
patterns against each candidate before moving to the next. -/
def extractLoop : List String → Option String
  | [] => none
  | t :: ts =>
    match tryPatterns t.data with
    | some g => some (String.mk g)
    | none => extractLoop ts

/-- `extract_entry_number`. -/
def extract_entry_number (e : Entry) : Option String :=
  extractLoop (candidates e)

/-! ## The fetcher (`fetch_source`) -/

/-- The observable outcome of one `requests.get` call: a response with a
status code and body, or a raised connection error. -/
inductive HttpResult where
  | resp (status : Nat) (body : String)
  | connError (msg : String)
  deriving DecidableEq, Repr

/-- The statuses the code treats as transient. -/
def isTransient (s : Nat) : Bool :=
  s == 429 || s == 500 || s == 502 || s == 503 || s == 504

/-- One attempt body: raise on a transient status, `raise_for_status`
(which raises exactly for 400 ≤ status < 600), else return the body.
Error messages are modelled abstractly. -/
def attemptOutcome : HttpResult → Except String String
  | .resp s b =>
    if isTransient s then .error ("Transient HTTP " ++ toString s)
    else if 400 ≤ s && s < 600 then .error ("HTTP error " ++ toString s)
    else .ok b
  | .connError m => .error m

/-- The retry loop of `fetch_source`: `attempt` is the 1-based attempt
number, the second argument the number of attempts still allowed,
`backoff` the current sleep length.  Returns the result and the list of
sleeps performed, in order.  A failing attempt other than the last
sleeps `backoff` and doubles it, capped at 30. -/
def fetchGo (results : Nat → HttpResult) :
    Nat → Nat → Nat → Except String String × List Nat
  | _, 0, _ => (.error "no attempts", [])
  | attempt, remaining + 1, backoff =>
    match attemptOutcome (results attempt) with
    | .ok body => (.ok body, [])
    | .error e =>
      match remaining with
      | 0 => (.error e, [])
      | r + 1 =>
        let rest := fetchGo results (attempt + 1) (r + 1) (min (backoff * 2) 30)
        (rest.1, backoff :: rest.2)

/-- `fetch_source`: attempts start at 1, backoff starts at 3. -/
def fetch_source (results : Nat → HttpResult) (maxRetries : Nat) :
    Except String String × List Nat :=
  fetchGo results 1 maxRetries 3

/-! ## The normaliser (`normalise_feed`) -/

/-- Substring test, Python `needle in hay` (second argument is the
needle). -/
def startsWithL : List Char → List Char → Bool
  | [], _ => true
  | _ :: _, [] => false
  | n :: ns, h :: hs => n == h && startsWithL ns hs

/-- Python `needle in hay` over strings (case-sensitive). -/
def containsL (hay needle : List Char) : Bool :=
  match hay with
  | [] => needle.isEmpty
  | _ :: t => startsWithL needle hay || containsL t needle

/-- Python `needle in hay` over strings. -/
def strContains (hay needle : String) : Bool := containsL hay.data needle.data

/-- The enclosure cleanup: drop a `type` attribute that is the literal
string `None` from a link whose `rel` is `enclosure`. -/
def cleanEnclosure (l : Link) : Link :=
  if l.rel == some "enclosure" && l.type == some "None" then
    { l with type := none }
  else l

/-- The keep-existing guard on one link: its href (defaulted to `""`)
contains `#entry` and its rel is unset, `alternate` or `self`. -/
def keepLink (l : Link) : Bool :=
  strContains (l.href.getD "") "#entry"
    && (l.rel == none || l.rel == some "alternate" || l.rel == some "self")

/-- `link.get("rel") in (None, "alternate")`. -/
def relAltOK (l : Link) : Bool :=
  l.rel == none || l.rel == some "alternate"

/-- The rewrite loop: find the first link whose rel is unset or
`alternate` and set its href and rel; append a fresh link when there is
none (`ET.SubElement` then two `set` calls). -/
def setFirstAlt : List Link → String → List Link
  | [], h => [{ href := some h, rel := some "alternate", type := none }]
  | l :: ls, h =>
    if relAltOK l then
      { l with href := some h, rel := some "alternate" } :: ls
    else
      l :: setFirstAlt ls h

/-- `preferred_href`: the docket page URL, with the `#entry<N>` fragment
appended when an entry number was found. -/
def preferredHref (cfg : Config) (entryNo : Option String) : String :=
  match entryNo with
  | none => docketHTML cfg
  | some n => docketHTML cfg ++ "#entry" ++ n

/-- The `<updated>` backfill: only when the element is absent; the text
is the published text when that element is present with truthy text,
else the current time. -/
def fillUpdated (now : String) (e : Entry) : Entry :=
  match e.updated with
  | some _ => e
  | none =>
    { e with
      updated := some (match e.published with
        | some p => if p == "" then now else p
        | none => now) }

/-- The per-entry part of `normalise_feed`'s loop: backfill `updated`,
clean enclosure types, compute the entry number over the current link
hrefs (the extraction reads only the id, title and hrefs, so the updated
backfill does not affect it), then either keep the links or rewrite the
first alternate link to the preferred href. -/
def normaliseEntry (cfg : Config) (now : String) (e : Entry) : Entry :=
  let e1 := fillUpdated now e
  let ls := e1.links.map cleanEnclosure
  let entryNo := extract_entry_number { e1 with links := ls }
  let preferred := preferredHref cfg entryNo
  let keep := ls.any keepLink
  { e1 with links := if keep then ls else setFirstAlt ls preferred }

/-- The tracked-maximum step: Python
`if newest is None or (text and text > newest)`.  Python's `None` and
`""` for the accumulator are conflated into `""`, which is observable
nowhere (both are falsy and the comparison is only reached when the
accumulator is truthy). -/
def newestStep (acc t : String) : String :=
  if acc == "" then t
  else if t != "" && decide (acc < t) then t
  else acc

/-- The feed-level self link inserted when `FEED_SELF_URL` is truthy. -/
def mkSelfLink (u : String) : Link :=
  { href := some u, rel := some "self", type := some "application/atom+xml" }

/-- `normalise_feed`, with the current time passed explicitly in place
of `now_utc_iso()`. -/
def normalise_feed (cfg : Config) (now : String) (f : Feed) : Feed :=
  let flinks :=
    match cfg.selfURL with
    | some u => if u == "" then f.feedLinks else mkSelfLink u :: f.feedLinks
    | none => f.feedLinks
  let es := f.entries.map (normaliseEntry cfg now)
  let newest := es.foldl (fun acc e => newestStep acc (e.updated.getD "")) ""
  { f with
    feedLinks := flinks
    entries := es
    updated := some (if newest == "" then now else newest) }

/-! ## Specification-side definitions

These follow the wording of the spec and claims and are compared with
the code-side definitions above. -/

/-- A captured group of 1 to 6 decimal digits. -/
def goodGroup (g : List Char) : Prop :=
  1 ≤ g.length ∧ g.length ≤ 6 ∧ g.all isDigitC = true

/-- Claim C7's description of the link-rewrite step, written over the
links after the enclosure cleanup: if any link with relation
`alternate`, `self` or unset carries `#entry` in its href, leave the
links as they are; otherwise locate the first link with relation
`alternate` or unset (`takeWhile`/`dropWhile` decomposition), create one
if none exists, and set its href to the docket page URL — with fragment
`#entry<N>` when an entry number was found, without a fragment when none
matched — and its relation to `alternate`. -/
def c7LinkStep (cfg : Config) (entryNo : Option String) (ls : List Link) :
    List Link :=
  let preferred :=
    match entryNo with
    | none => docketHTML cfg
    | some n => docketHTML cfg ++ "#entry" ++ n
  if ls.any keepLink then ls
  else
    let pre := ls.takeWhile (fun l => !relAltOK l)
    let rest := ls.dropWhile (fun l => !relAltOK l)
    match rest with
    | [] => ls ++ [{ href := some preferred, rel := some "alternate", type := none }]
    | l :: rest2 =>
      pre ++ ({ l with href := some preferred, rel := some "alternate" } :: rest2)

/-- Lexical maximum of the nonempty strings of a list, `""` when there
are none. -/
def lexMaxNonempty (l : List String) : String :=
  l.foldl
    (fun a t =>
      if t == "" then a
      else if a == "" then t
      else if decide (a < t) then t else a) ""

/-- The amended feed-level timestamp of claim C3: the lexical maximum of
the nonempty post-normalisation entry `updated` texts, or the current
time when there is none (no entries, or only empty `updated` texts). -/
def specFeedUpdated (now : String) (es : List Entry) : String :=
  if lexMaxNonempty (es.map (fun e => e.updated.getD "")) == "" then now
  else lexMaxNonempty (es.map (fun e => e.updated.getD ""))

/-- Number of feed-level links with relation `self`. -/
def countSelf (ls : List Link) : Nat :=
  (ls.filter (fun l => l.rel == some "self")).length

/-- The backoff sequence: `k` sleeps starting at `b`, doubling and
capped at 30. -/
def backoffList : Nat → Nat → List Nat
  | _, 0 => []
  | b, k + 1 => b :: backoffList (min (b * 2) 30) k

/-! ## Concrete inputs used in counterexamples and witnesses -/

/-- A configuration with a self URL set. -/
def cfg0 : Config := { docketId := 1, docketSlug := "s", selfURL := some "https://e/f.xml" }

/-- Entry whose id matches only the loose bare pattern (number 99) while
its title matches the highest-priority path-segment pattern (number 55). -/
def eC1 : Entry :=
  { id := some "docket entry 99", title := some "/entry55",
    published := none, updated := none, links := [] }

/-- Entry whose first candidate matches nothing and whose second (the
title) matches the title pattern. -/
def eC1w : Entry :=
  { id := some "nothing here", title := some "Entry #12",
    published := none, updated := none, links := [] }

/-- A feed whose single entry has a present but empty `updated` element. -/
def fC3 : Feed :=
  { title := none, feedLinks := [], updated := none,
    entries := [{ id := some "i1", title := none, published := none,
                  updated := some "", links := [] }] }

/-- A feed whose single entry has a present but empty `updated` element. -/
def fC4 : Feed :=
  { title := none, feedLinks := [], updated := none,
    entries := [{ id := none, title := none, published := none,
                  updated := some "", links := [] }] }

/-- An entry lacking `updated` with a `published` timestamp. -/
def eC6 : Entry :=
  { id := none, title := none, published := some "2020-01-02T03:04:05Z",
    updated := none, links := [] }

/-- A feed whose single entry lacks `updated` and has a `published`
timestamp. -/
def fC6 : Feed :=
  { title := none, feedLinks := [], updated := none, entries := [eC6] }

/-- An enclosure link with the literal media type `None`. -/
def lC8 : Link :=
  { href := some "https://f.pdf", rel := some "enclosure", type := some "None" }

/-- An entry carrying only the enclosure link `lC8`. -/
def eC8 : Entry :=
  { id := none, title := none, published := none, updated := none,
    links := [lC8] }

/-- A feed whose single entry carries an enclosure link with the literal
media type `None`. -/
def fC8 : Feed :=
  { title := none, feedLinks := [], updated := none, entries := [eC8] }

/-- Entry whose link contains `#entry` with no digits after it, while
the title yields a fresh entry number 7. -/
def eC10 : Entry :=
  { id := none, title := some "Entry #7", published := none,
    updated := none,
    links := [{ href := some "http://a/b#entryZ", rel := none, type := none }] }

/-- Entry whose only candidate is a bare entry number of 7 digits. -/
def eC9 : Entry :=
  { id := some "entry 1234567", title := none, published := none,
    updated := none, links := [] }

/-- Entry whose id ends in `/entry1234567`. -/
def eC9slash : Entry :=
  { id := some "https://x/entry1234567", title := none, published := none,
    updated := none, links := [] }

/-- An empty feed, input of the C2 counterexample. -/
def fC2 : Feed := { title := some "T", feedLinks := [], updated := none, entries := [] }

/-- A one-entry feed, input of the C2 witness. -/
def fC2w : Feed :=
  { title := some "T", feedLinks := [], updated := none,
    entries := [{ id := some "x/entry3", title := none, published := none,
                  updated := none, links := [] }] }

/-! ## Sanity checks of the pattern semantics -/

example : searchSlash "x/entry567y".data = some ['5', '6', '7'] := by decide
example : searchTitle "See Entry # 12".data = some ['1', '2'] := by decide
example : searchHash "a#entry 9".data = some ['9'] := by decide
example : searchBare "the entry 99 here".data = some ['9', '9'] := by decide
example : searchBare "entry1234567".data = none := by decide
example : searchBare "xentry12".data = none := by decide
example : tryPatterns "/entry1234567".data = some ['1','2','3','4','5','6'] := by decide
example : extract_entry_number
    { id := some "docket entry 99", title := some "/entry55",
      published := none, updated := none, links := [] } = some "99" := by decide
example : strContains "http://x/a#entryfoo" "#entry" = true := by decide
example : strContains "https://www.courtlistener.com/docket/1/s/" "#entry" = false := by decide

/-! ## Supporting lemmas: the retry loop -/

/-- When every attempt in the window fails, the loop sleeps the doubling
backoff sequence after each non-final attempt and propagates the last
attempt's error. -/
theorem fetchGo_all_errors (results : Nat → HttpResult) :
    ∀ (rem att b : Nat), 1 ≤ rem →
    (∀ i, att ≤ i → i < att + rem → ∃ m, attemptOutcome (results i) = .error m) →
    ∃ m, attemptOutcome (results (att + rem - 1)) = .error m
      ∧ fetchGo results att rem b = (.error m, backoffList b (rem - 1)) := by
  intro rem
  induction rem with
  | zero => intro att b h; omega
  | succ n ih =>
    intro att b _ hall
    obtain ⟨m, hm⟩ := hall att (Nat.le_refl att) (by omega)
    cases n with
    | zero =>
      refine ⟨m, ?_, ?_⟩
      · simpa using hm
      · simp [fetchGo, hm, backoffList]
    | succ k =>
      obtain ⟨m2, hm2, hgo⟩ :=
        ih (att + 1) (min (b * 2) 30) (by omega)
          (fun i hi1 hi2 => hall i (by omega) (by omega))
      refine ⟨m2, ?_, ?_⟩
      · have harith : att + (k + 1 + 1) - 1 = att + 1 + (k + 1) - 1 := by omega
        rw [harith]; exact hm2
      · simp [fetchGo, hm, hgo, backoffList]

/-- The backoff list starting at `min (3·2^j) 30` is the capped doubling
sequence. -/
theorem backoffList_formula :
    ∀ (n j : Nat),
      backoffList (min (3 * 2 ^ j) 30) n
        = (List.range n).map (fun k => min (3 * 2 ^ (j + k)) 30) := by
  intro n
  induction n with
  | zero => intro j; simp [backoffList]
  | succ m ih =>
    intro j
    rw [List.range_succ_eq_map]
    simp only [List.map_cons, List.map_map]
    rw [backoffList]
    have h1 : min (min (3 * 2 ^ j) 30 * 2) 30 = min (3 * 2 ^ (j + 1)) 30 := by
      have h2 : 3 * 2 ^ (j + 1) = 3 * 2 ^ j * 2 := by ring
      rw [h2]
      generalize 3 * 2 ^ j = x
      omega
    rw [h1, ih (j + 1)]
    refine List.cons_eq_cons.mpr ⟨by simp, ?_⟩
    apply List.map_congr_left
    intro a _
    simp only [Function.comp]
    have h3 : j + 1 + a = j + Nat.succ a := by omega
    rw [h3]

/-! ## Claim C5 -/

/-- C5, counterexample.  The claim states that a non-transient non-2xx
status (such as 404) is not retried.  With every attempt answering 404
and `max_retries = 5`, the code performs four backoff sleeps — the 404
was retried four times — before the error propagates. -/
theorem c5_counterexample :
    fetch_source (fun _ => HttpResult.resp 404 "nf") 5
      = (.error "HTTP error 404", [3, 6, 12, 24]) := rfl

/-- C5, amended: statuses 429/500/502/503/504 raise a transient error
and any other status in 400..599 also raises, but the `except` clause
catches every exception alike, so every failure — transient or not — is
retried until `max_retries` attempts have been made, sleeping
`min (3·2^k, 30)` seconds after the k-th failed attempt; the error of
the final attempt propagates unchanged. -/
theorem c5_amended (results : Nat → HttpResult) (maxRetries : Nat)
    (h1 : 1 ≤ maxRetries)
    (hall : ∀ i, 1 ≤ i → i ≤ maxRetries →
      ∃ m, attemptOutcome (results i) = .error m) :
    ∃ m, attemptOutcome (results maxRetries) = .error m
      ∧ fetch_source results maxRetries
          = (.error m,
             (List.range (maxRetries - 1)).map (fun k => min (3 * 2 ^ k) 30)) := by
  obtain ⟨m, hm, hgo⟩ :=
    fetchGo_all_errors results maxRetries 1 3 h1
      (fun i hi1 hi2 => hall i hi1 (by omega))
  refine ⟨m, ?_, ?_⟩
  · have harith : 1 + maxRetries - 1 = maxRetries := by omega
    rwa [harith] at hm
  · rw [fetch_source, hgo]
    have h3 : (3 : Nat) = min (3 * 2 ^ 0) 30 := by norm_num
    rw [h3, backoffList_formula]
    simp

/-- C5, witness: the amended theorem applied to a run whose every
attempt answers 404, with three attempts allowed. -/
theorem c5_witness :
    ∃ m, attemptOutcome ((fun _ => HttpResult.resp 404 "nf") 3) = .error m
      ∧ fetch_source (fun _ => HttpResult.resp 404 "nf") 3
          = (.error m, (List.range 2).map (fun k => min (3 * 2 ^ k) 30)) :=
  c5_amended (fun _ => HttpResult.resp 404 "nf") 3 (by omega)
    (fun i _ _ => ⟨"HTTP error 404", rfl⟩)

/-! ## Supporting lemmas: the extraction loop -/

/-- The candidate loop returns nothing exactly when no pattern matches
any candidate. -/
theorem extractLoop_eq_none_iff (ts : List String) :
    extractLoop ts = none ↔ ∀ t ∈ ts, tryPatterns t.data = none := by
  induction ts with
  | nil => simp [extractLoop]
  | cons t ts ih =>
    cases h : tryPatterns t.data with
    | some g => simp [extractLoop, h]
    | none => simp [extractLoop, h, ih]

/-- The candidate loop returns the group of the first candidate any
pattern matches. -/
theorem extractLoop_first (ts : List String) :
    ∀ (i : Nat) (ti : String) (g : List Char),
      (∀ j, j < i → ∀ t, ts[j]? = some t → tryPatterns t.data = none) →
      ts[i]? = some ti → tryPatterns ti.data = some g →
      extractLoop ts = some (String.mk g) := by
  induction ts with
  | nil => intro i ti g _ hi _; simp at hi
  | cons t ts ih =>
    intro i ti g hbefore hi hmatch
    cases i with
    | zero =>
      simp only [List.getElem?_cons_zero, Option.some.injEq] at hi
      subst hi
      simp [extractLoop, hmatch]
    | succ n =>
      have h0 : tryPatterns t.data = none := hbefore 0 (by omega) t (by simp)
      simp only [extractLoop, h0]
      exact ih n ti g
        (fun j hj t2 ht2 => hbefore (j + 1) (by omega) t2 (by simpa using ht2))
        (by simpa using hi) hmatch

/-- `takeDigits n` captures at most `n` characters, all digits. -/
theorem takeDigits_sound :
    ∀ (n : Nat) (s : List Char),
      (takeDigits n s).1.length ≤ n ∧ (takeDigits n s).1.all isDigitC = true := by
  intro n
  induction n with
  | zero => intro s; simp [takeDigits]
  | succ m ih =>
    intro s
    cases s with
    | nil => simp [takeDigits]
    | cons c cs =>
      simp only [takeDigits]
      split
      · rename_i hc
        obtain ⟨h1, h2⟩ := ih cs
        refine ⟨?_, ?_⟩
        · simpa using Nat.succ_le_succ h1
        · simp [List.all_cons, hc, h2]
      · simp

/-- A group produced by `digitGroup` is 1..6 digits. -/
theorem digitGroup_good {s g : List Char} (h : digitGroup s = some g) :
    goodGroup g := by
  unfold digitGroup at h
  split at h
  · exact Option.noConfusion h
  · injection h with h2
    subst h2
    obtain ⟨hl, hd⟩ := takeDigits_sound 6 s
    rename_i hne
    refine ⟨?_, hl, hd⟩
    have hnil : (takeDigits 6 s).1 ≠ [] := by
      simpa [List.isEmpty_iff] using hne
    exact List.length_pos.mpr hnil

/-- A group produced by `digitGroupB` is 1..6 digits. -/
theorem digitGroupB_good {s g : List Char} (h : digitGroupB s = some g) :
    goodGroup g := by
  unfold digitGroupB at h
  split at h
  · exact Option.noConfusion h
  · rename_i hne
    have hgood : ∀ h2 : (takeDigits 6 s).1 = g, goodGroup g := by
      intro h2
      subst h2
      obtain ⟨hl, hd⟩ := takeDigits_sound 6 s
      refine ⟨?_, hl, hd⟩
      have hnil : (takeDigits 6 s).1 ≠ [] := by
        simpa [List.isEmpty_iff] using hne
      exact List.length_pos.mpr hnil
    split at h
    · injection h with h2; exact hgood h2
    · split at h
      · exact Option.noConfusion h
      · injection h with h2; exact hgood h2

/-- Soundness of the position scan: a returned group comes from the
anchored matcher at some position. -/
theorem scanAux_some {f : Option Char → List Char → Option (List Char)} :
    ∀ {prev : Option Char} {s g : List Char},
      scanAux f prev s = some g → ∃ p t, f p t = some g := by
  intro prev s
  induction s generalizing prev with
  | nil =>
    intro g h
    exact ⟨prev, [], by simpa [scanAux] using h⟩
  | cons c cs ih =>
    intro g h
    simp only [scanAux] at h
    cases hf : f prev (c :: cs) with
    | some g2 =>
      rw [hf] at h
      exact ⟨prev, c :: cs, hf.trans h⟩
    | none =>
      rw [hf] at h
      exact ih h

/-- Any group captured by pattern 1 is 1..6 digits. -/
theorem pSlashAt_good : ∀ {s g : List Char}, pSlashAt s = some g → goodGroup g := by
  intro s g h
  unfold pSlashAt at h
  split at h
  · split at h
    · exact Option.noConfusion h
    · exact digitGroup_good h
  · exact Option.noConfusion h

/-- Any group captured by pattern 2 is 1..6 digits. -/
theorem pTitleAt_good : ∀ {s g : List Char}, pTitleAt s = some g → goodGroup g := by
  intro s g h
  unfold pTitleAt at h
  split at h
  · exact Option.noConfusion h
  · split at h
    · exact digitGroup_good h
    · exact Option.noConfusion h

/-- Any group captured by pattern 3 is 1..6 digits. -/
theorem pHashAt_good : ∀ {s g : List Char}, pHashAt s = some g → goodGroup g := by
  intro s g h
  unfold pHashAt at h
  split at h
  · split at h
    · exact Option.noConfusion h
    · exact digitGroup_good h
  · exact Option.noConfusion h

/-- Any group captured by pattern 4 is 1..6 digits. -/
theorem pBareAt_good :
    ∀ {p : Option Char} {s g : List Char}, pBareAt p s = some g → goodGroup g := by
  intro p s g h
  unfold pBareAt at h
  split at h
  · split at h
    · exact Option.noConfusion h
    · exact digitGroupB_good h
  · exact Option.noConfusion h

/-- Any group returned by the pattern battery is 1..6 digits. -/
theorem tryPatterns_good {s g : List Char} (h : tryPatterns s = some g) :
    goodGroup g := by
  unfold tryPatterns at h
  cases h1 : searchSlash s with
  | some g1 =>
    rw [h1] at h; injection h with h2; subst h2
    obtain ⟨p, t, hf⟩ := scanAux_some h1
    exact pSlashAt_good hf
  | none =>
    rw [h1] at h
    cases h2 : searchTitle s with
    | some g2 =>
      rw [h2] at h; injection h with h3; subst h3
      obtain ⟨p, t, hf⟩ := scanAux_some h2
      exact pTitleAt_good hf
    | none =>
      rw [h2] at h
      cases h3 : searchHash s with
      | some g3 =>
        rw [h3] at h; injection h with h4; subst h4
        obtain ⟨p, t, hf⟩ := scanAux_some h3
        exact pHashAt_good hf
      | none =>
        rw [h3] at h
        obtain ⟨p, t, hf⟩ := scanAux_some h
        exact pBareAt_good hf

/-- Any result of the candidate loop is 1..6 digits. -/
theorem extractLoop_good :
    ∀ (ts : List String) (r : String), extractLoop ts = some r → goodGroup r.data := by
  intro ts
  induction ts with
  | nil => intro r h; simp [extractLoop] at h
  | cons t ts ih =>
    intro r h
    simp only [extractLoop] at h
    cases hp : tryPatterns t.data with
    | some g =>
      rw [hp] at h; injection h with h2; subst h2
      exact tryPatterns_good hp
    | none =>
      rw [hp] at h
      exact ih r h

/-! ## Claim C1 -/

/-- C1, counterexample.  In `eC1` the id matches only the loose bare
pattern (capturing `99`) while the title matches the highest-priority
path-segment pattern (capturing `55`); the claim requires the
higher-priority pattern to win, but the code returns `99` because the
loop iterates candidates in the outer loop and patterns only in the
inner loop. -/
theorem c1_counterexample :
    extract_entry_number eC1 = some "99"
      ∧ searchSlash ("/entry55".data) = some ['5', '5']
      ∧ ("99" : String) ≠ "55" :=
  ⟨by decide, by decide, by decide⟩

/-- C1, amended: candidate order takes precedence over pattern
priority.  The result is the group of the first candidate (id, title,
link hrefs, in that order) that any of the four patterns matches;
within that single candidate the four patterns are tried in priority
order (`tryPatterns`). -/
theorem c1_amended (e : Entry) (i : Nat) (ti : String) (g : List Char)
    (hbefore : ∀ j, j < i → ∀ t, (candidates e)[j]? = some t →
      tryPatterns t.data = none)
    (hi : (candidates e)[i]? = some ti)
    (hmatch : tryPatterns ti.data = some g) :
    extract_entry_number e = some (String.mk g) :=
  extractLoop_first (candidates e) i ti g hbefore hi hmatch

/-- C1, witness: first candidate matches nothing, second candidate (the
title `Entry #12`) matches, and the code returns its group. -/
theorem c1_witness : extract_entry_number eC1w = some (String.mk ['1', '2']) :=
  c1_amended eC1w 1 "Entry #12" ['1', '2']
    (by
      intro j hj t ht
      have hj0 : j = 0 := by omega
      subst hj0
      have hc : (candidates eC1w)[0]? = some "nothing here" := by decide
      rw [hc] at ht
      injection ht with ht2
      subst ht2
      decide)
    (by decide) (by decide)

/-! ## Claim C9 -/

/-- C9, counterexample.  The claim states that a candidate containing an
entry number of more than six digits yields the first six digits.  For
the bare-form candidate `entry 1234567` the trailing word-boundary of
the loose pattern rejects every prefix of the digit run, so the code
returns nothing rather than `123456`. -/
theorem c9_counterexample : extract_entry_number eC9 = none := by decide

/-- C9, amended: every returned result is a string of 1 to 6 decimal
digits; for the path-segment, title and fragment forms a longer digit
run is truncated to its first six digits (witnessed by an id ending in
`/entry1234567`), while the bare word-boundary form simply fails on a
digit run longer than six. -/
theorem c9_amended :
    (∀ (e : Entry) (r : String), extract_entry_number e = some r →
        1 ≤ r.length ∧ r.length ≤ 6 ∧ r.data.all isDigitC = true)
      ∧ extract_entry_number eC9slash = some "123456" := by
  constructor
  · intro e r h
    exact extractLoop_good (candidates e) r h
  · decide

/-- C9, witness: the universal part of the amended claim applied to the
concrete entry whose id ends in `/entry1234567`. -/
theorem c9_witness :
    1 ≤ ("123456" : String).length ∧ ("123456" : String).length ≤ 6
      ∧ ("123456" : String).data.all isDigitC = true :=
  c9_amended.1 eC9slash "123456" c9_amended.2

/-! ## Supporting lemmas: the per-entry normalisation -/

/-- The backfill leaves the id untouched. -/
theorem fillUpdated_id (now : String) (e : Entry) :
    (fillUpdated now e).id = e.id := by
  cases e with
  | mk i t p u l => cases u <;> rfl

/-- The backfill leaves the title untouched. -/
theorem fillUpdated_title (now : String) (e : Entry) :
    (fillUpdated now e).title = e.title := by
  cases e with
  | mk i t p u l => cases u <;> rfl

/-- The backfill leaves the published text untouched. -/
theorem fillUpdated_published (now : String) (e : Entry) :
    (fillUpdated now e).published = e.published := by
  cases e with
  | mk i t p u l => cases u <;> rfl

/-- The backfill leaves the links untouched. -/
theorem fillUpdated_links (now : String) (e : Entry) :
    (fillUpdated now e).links = e.links := by
  cases e with
  | mk i t p u l => cases u <;> rfl

/-- After the backfill the `updated` element is present. -/
theorem fillUpdated_updated_isSome (now : String) (e : Entry) :
    ((fillUpdated now e).updated).isSome = true := by
  cases e with
  | mk i t p u l => cases u <;> simp [fillUpdated]

/-- An entry with a present `updated` element is not backfilled. -/
theorem fillUpdated_of_isSome (now : String) (e : Entry)
    (h : (e.updated).isSome = true) : fillUpdated now e = e := by
  cases e with
  | mk i t p u l =>
    cases u with
    | none => simp at h
    | some v => rfl

/-- Extraction reads only the id, the title and the link hrefs, so the
backfill does not change its result. -/
theorem extract_congr_fill (now : String) (e : Entry) (ls : List Link) :
    extract_entry_number { fillUpdated now e with links := ls }
      = extract_entry_number { e with links := ls } := by
  cases e with
  | mk i t p u l => cases u <;> rfl

/-- The per-entry normalisation leaves the id untouched. -/
theorem normaliseEntry_id (cfg : Config) (now : String) (e : Entry) :
    (normaliseEntry cfg now e).id = e.id := by
  simp [normaliseEntry, fillUpdated_id]

/-- The per-entry normalisation leaves the title untouched. -/
theorem normaliseEntry_title (cfg : Config) (now : String) (e : Entry) :
    (normaliseEntry cfg now e).title = e.title := by
  simp [normaliseEntry, fillUpdated_title]

/-- The per-entry normalisation leaves the published text untouched. -/
theorem normaliseEntry_published (cfg : Config) (now : String) (e : Entry) :
    (normaliseEntry cfg now e).published = e.published := by
  simp [normaliseEntry, fillUpdated_published]

/-- The `updated` text after normalisation is the backfilled one. -/
theorem normaliseEntry_updated (cfg : Config) (now : String) (e : Entry) :
    (normaliseEntry cfg now e).updated = (fillUpdated now e).updated := by
  simp [normaliseEntry]

/-- The links after normalisation, expressed over the input entry. -/
theorem normaliseEntry_links (cfg : Config) (now : String) (e : Entry) :
    (normaliseEntry cfg now e).links =
      (if (e.links.map cleanEnclosure).any keepLink then e.links.map cleanEnclosure
       else
         setFirstAlt (e.links.map cleanEnclosure)
           (preferredHref cfg
             (extract_entry_number { e with links := e.links.map cleanEnclosure }))) := by
  simp only [normaliseEntry]
  rw [fillUpdated_links, extract_congr_fill]

/-- The entries of the normalised feed are the normalised entries. -/
theorem normalise_feed_entries (cfg : Config) (now : String) (f : Feed) :
    (normalise_feed cfg now f).entries
      = f.entries.map (normaliseEntry cfg now) := rfl

/-- The feed-level `updated` text of the normalised feed. -/
theorem normalise_feed_updated (cfg : Config) (now : String) (f : Feed) :
    (normalise_feed cfg now f).updated
      = some
          (if ((f.entries.map (normaliseEntry cfg now)).foldl
                (fun acc e => newestStep acc (e.updated.getD "")) "") == ""
           then now
           else (f.entries.map (normaliseEntry cfg now)).foldl
                (fun acc e => newestStep acc (e.updated.getD "")) "") := rfl

/-- The feed-level links of the normalised feed. -/
theorem normalise_feed_feedLinks (cfg : Config) (now : String) (f : Feed) :
    (normalise_feed cfg now f).feedLinks
      = (match cfg.selfURL with
         | some u => if u == "" then f.feedLinks else mkSelfLink u :: f.feedLinks
         | none => f.feedLinks) := rfl

/-- The tracked-maximum step agrees with the skip-empty lexical-maximum
step. -/
theorem newestStep_eq_spec (a t : String) :
    newestStep a t
      = (if t == "" then a
         else if a == "" then t
         else if decide (a < t) then t else a) := by
  unfold newestStep
  by_cases ha : a = ""
  · subst ha
    by_cases ht : t = ""
    · subst ht; simp
    · simp [ht]
  · by_cases ht : t = ""
    · subst ht; simp [ha, bne]
    · simp [ha, ht, bne]

/-- The tracked maximum over the entries is the skip-empty lexical
maximum of their `updated` texts. -/
theorem lexMax_fold_aux (es : List Entry) : ∀ (a : String),
    (es.map (fun e => e.updated.getD "")).foldl
      (fun b t =>
        if t == "" then b
        else if b == "" then t
        else if decide (b < t) then t else b) a
      = es.foldl (fun acc e => newestStep acc (e.updated.getD "")) a := by
  induction es with
  | nil => intro a; rfl
  | cons e es ih =>
    intro a
    simp only [List.map_cons, List.foldl_cons]
    rw [newestStep_eq_spec]
    exact ih _

/-- `lexMaxNonempty` over the entry texts equals the code's fold. -/
theorem lexMaxNonempty_entries (es : List Entry) :
    lexMaxNonempty (es.map (fun e => e.updated.getD ""))
      = es.foldl (fun acc e => newestStep acc (e.updated.getD "")) "" :=
  lexMax_fold_aux es ""

/-! ## Claim C3 -/

/-- C3, counterexample.  `fC3`'s single entry has a present but empty
`updated` element, which normalisation keeps; the lexical maximum of the
post-normalisation entry `updated` texts is therefore `""`, yet the
feed-level `updated` is set to the current time, and the feed is not
entry-less. -/
theorem c3_counterexample :
    (normalise_feed cfg0 "2025-06-01T00:00:00Z" fC3).updated
        = some "2025-06-01T00:00:00Z"
      ∧ (normalise_feed cfg0 "2025-06-01T00:00:00Z" fC3).entries.map
          (fun e => e.updated.getD "") = [""]
      ∧ ("2025-06-01T00:00:00Z" : String) ≠ "" :=
  ⟨by decide, by decide, by decide⟩

/-- C3, amended: the feed-level `updated` equals the lexical maximum of
the nonempty post-normalisation entry `updated` texts, and equals the
current time when there is no such text — because the feed has no
entries, or because every entry's `updated` text is empty. -/
theorem c3_amended (cfg : Config) (now : String) (f : Feed) :
    (normalise_feed cfg now f).updated
      = some (specFeedUpdated now (normalise_feed cfg now f).entries) := by
  rw [normalise_feed_updated, normalise_feed_entries]
  unfold specFeedUpdated
  rw [lexMaxNonempty_entries]

/-! ## Claim C4 -/

/-- C4, counterexample.  `fC4`'s single entry has a present but empty
`updated` element; the code backfills only when the element is absent,
so the output entry still carries an empty `updated` text, contradicting
"no entry in the output has an absent or empty updated field". -/
theorem c4_counterexample :
    (normalise_feed cfg0 "2025-01-01T00:00:00Z" fC4).entries.map
        (fun e => e.updated) = [some ""] := by decide

/-- C4, amended: every output entry has a present `updated` element, and
its text is nonempty unless the input entry already carried that exact
(possibly empty) `updated` text; entries lacking the element are
backfilled with the published text or the (nonempty) current time. -/
theorem c4_amended (cfg : Config) (now : String) (f : Feed) (i : Nat)
    (e : Entry) (hnow : now ≠ "") (h : f.entries[i]? = some e) :
    ∃ oe t, (normalise_feed cfg now f).entries[i]? = some oe
      ∧ oe.updated = some t
      ∧ (e.updated = some t ∨ t ≠ "") := by
  refine ⟨normaliseEntry cfg now e, ?_⟩
  have hoe : (normalise_feed cfg now f).entries[i]? = some (normaliseEntry cfg now e) := by
    rw [normalise_feed_entries, List.getElem?_map, h]
    rfl
  cases hu : e.updated with
  | some v =>
    refine ⟨v, hoe, ?_, Or.inl rfl⟩
    rw [normaliseEntry_updated, fillUpdated_of_isSome now e (by simp [hu]), hu]
  | none =>
    cases hp : e.published with
    | some p =>
      by_cases hpe : p = ""
      · subst hpe
        refine ⟨now, hoe, ?_, Or.inr hnow⟩
        rw [normaliseEntry_updated]
        cases e with
        | mk i2 t2 p2 u2 l2 =>
          simp at hu hp
          subst hu; subst hp
          simp [fillUpdated]
      · refine ⟨p, hoe, ?_, Or.inr hpe⟩
        rw [normaliseEntry_updated]
        cases e with
        | mk i2 t2 p2 u2 l2 =>
          simp at hu hp
          subst hu; subst hp
          simp [fillUpdated, hpe]
    | none =>
      refine ⟨now, hoe, ?_, Or.inr hnow⟩
      rw [normaliseEntry_updated]
      cases e with
      | mk i2 t2 p2 u2 l2 =>
        simp at hu hp
        subst hu; subst hp
        simp [fillUpdated]

/-- C4, witness: the amended theorem on a feed whose entry lacks
`updated` and carries a published timestamp. -/
theorem c4_witness :
    ∃ oe t, (normalise_feed cfg0 "2025-01-01T00:00:00Z" fC6).entries[0]? = some oe
      ∧ oe.updated = some t
      ∧ (eC6.updated = some t ∨ t ≠ "") :=
  c4_amended cfg0 "2025-01-01T00:00:00Z" fC6 0 eC6 (by decide) (by decide)

/-! ## Claim C6 -/

/-- C6, confirmed: an entry lacking an `updated` element but carrying a
published timestamp gets `updated` set to exactly the published text. -/
theorem c6_thm (cfg : Config) (now : String) (f : Feed) (i : Nat)
    (e : Entry) (p : String) (h : f.entries[i]? = some e)
    (hupd : e.updated = none) (hpub : e.published = some p) (hp : p ≠ "") :
    ∃ oe, (normalise_feed cfg now f).entries[i]? = some oe
      ∧ oe.updated = some p := by
  refine ⟨normaliseEntry cfg now e, ?_, ?_⟩
  · rw [normalise_feed_entries, List.getElem?_map, h]
    rfl
  · rw [normaliseEntry_updated]
    cases e with
    | mk i2 t2 p2 u2 l2 =>
      simp at hupd hpub
      subst hupd; subst hpub
      simp [fillUpdated, hp]

/-- C6, witness: the theorem applied to the concrete one-entry feed
`fC6`. -/
theorem c6_witness :
    ∃ oe, (normalise_feed cfg0 "2025-01-01T00:00:00Z" fC6).entries[0]? = some oe
      ∧ oe.updated = some "2020-01-02T03:04:05Z" :=
  c6_thm cfg0 "2025-01-01T00:00:00Z" fC6 0 eC6 "2020-01-02T03:04:05Z"
    (by decide) (by decide) (by decide) (by decide)

/-! ## Supporting lemmas: link rewriting -/

/-- The enclosure cleanup never changes the href. -/
theorem cleanEnclosure_href (l : Link) : (cleanEnclosure l).href = l.href := by
  unfold cleanEnclosure; split <;> rfl

/-- The enclosure cleanup never changes the rel. -/
theorem cleanEnclosure_rel (l : Link) : (cleanEnclosure l).rel = l.rel := by
  unfold cleanEnclosure; split <;> rfl

/-- The keep-existing guard sees through the enclosure cleanup. -/
theorem keepLink_clean (l : Link) : keepLink (cleanEnclosure l) = keepLink l := by
  unfold keepLink; rw [cleanEnclosure_href, cleanEnclosure_rel]

/-- The alternate test sees through the enclosure cleanup. -/
theorem relAltOK_clean (l : Link) : relAltOK (cleanEnclosure l) = relAltOK l := by
  unfold relAltOK; rw [cleanEnclosure_rel]

/-- The guard over the cleaned links equals the guard over the input
links. -/
theorem any_keepLink_map_clean (ls : List Link) :
    (ls.map cleanEnclosure).any keepLink = ls.any keepLink := by
  induction ls with
  | nil => rfl
  | cons l ls ih => simp [keepLink_clean, ih]

/-- The rewrite loop, expressed as locate-first-and-set. -/
theorem setFirstAlt_locate (ls : List Link) (p : String) :
    setFirstAlt ls p
      = (match ls.dropWhile (fun l => !relAltOK l) with
         | [] => ls ++ [{ href := some p, rel := some "alternate", type := none }]
         | l :: rest2 =>
           ls.takeWhile (fun l => !relAltOK l)
             ++ ({ l with href := some p, rel := some "alternate" } :: rest2)) := by
  induction ls with
  | nil => rfl
  | cons x xs ih =>
    by_cases hx : relAltOK x = true
    · simp [setFirstAlt, List.dropWhile_cons, List.takeWhile_cons, hx]
    · have hx2 : relAltOK x = false := by
        cases hval : relAltOK x
        · rfl
        · exact absurd hval hx
      cases hd : xs.dropWhile (fun l => !relAltOK l) with
      | nil =>
        simp [setFirstAlt, List.dropWhile_cons, List.takeWhile_cons, hx2, hd, ih]
      | cons y ys =>
        simp [setFirstAlt, List.dropWhile_cons, List.takeWhile_cons, hx2, hd, ih]

/-- The rewrite loop leaves a link that is neither unset nor `alternate`
in place, at the same index. -/
theorem setFirstAlt_getElem?_of_not_alt :
    ∀ (ls : List Link) (p : String) (i : Nat) (l : Link),
      ls[i]? = some l → relAltOK l = false →
      (setFirstAlt ls p)[i]? = some l := by
  intro ls
  induction ls with
  | nil => intro p i l h _; simp at h
  | cons x xs ih =>
    intro p i l h hrel
    cases i with
    | zero =>
      simp only [List.getElem?_cons_zero, Option.some.injEq] at h
      subst h
      simp [setFirstAlt, hrel]
    | succ n =>
      simp only [List.getElem?_cons_succ] at h
      unfold setFirstAlt
      split
      · simpa using h
      · simpa using ih p n l h hrel

/-- Two entries with equal fields are equal. -/
theorem Entry_eq_of_fields {a b : Entry} (h1 : a.id = b.id) (h2 : a.title = b.title)
    (h3 : a.published = b.published) (h4 : a.updated = b.updated)
    (h5 : a.links = b.links) : a = b := by
  cases a with
  | mk ai at2 ap au al =>
    cases b with
    | mk bi bt bp bu bl =>
      simp only [Entry.mk.injEq]
      exact ⟨h1, h2, h3, h4, h5⟩

/-- The enclosure cleanup is idempotent. -/
theorem cleanEnclosure_idem (l : Link) :
    cleanEnclosure (cleanEnclosure l) = cleanEnclosure l := by
  by_cases h : (l.rel == some "enclosure" && l.type == some "None") = true
  · have h1 : cleanEnclosure l = { l with type := none } := by
      unfold cleanEnclosure; rw [if_pos h]
    rw [h1]
    unfold cleanEnclosure
    simp
  · have h1 : cleanEnclosure l = l := by
      unfold cleanEnclosure; rw [if_neg h]
    rw [h1]
    unfold cleanEnclosure; rw [if_neg h]

/-- Every link in a cleaned list is a fixed point of the cleanup. -/
theorem all_clean_map (ls : List Link) :
    ∀ l ∈ ls.map cleanEnclosure, cleanEnclosure l = l := by
  intro l hl
  obtain ⟨l0, _, rfl⟩ := List.mem_map.mp hl
  exact cleanEnclosure_idem l0

/-- Cleaning a list of cleanup fixed points is the identity. -/
theorem map_clean_of_all_clean (ls : List Link)
    (h : ∀ l ∈ ls, cleanEnclosure l = l) : ls.map cleanEnclosure = ls := by
  induction ls with
  | nil => rfl
  | cons x xs ih =>
    simp only [List.map_cons, h x (by simp)]
    rw [ih (fun l hl => h l (by simp [hl]))]

/-- Cleaning twice is cleaning once. -/
theorem map_clean_idem (ls : List Link) :
    (ls.map cleanEnclosure).map cleanEnclosure = ls.map cleanEnclosure :=
  map_clean_of_all_clean _ (all_clean_map ls)

/-- The rewritten link is a fixed point of the cleanup (its rel is
`alternate`, not `enclosure`). -/
theorem cleanEnclosure_set (l : Link) (p : String) :
    cleanEnclosure { l with href := some p, rel := some "alternate" }
      = { l with href := some p, rel := some "alternate" } := rfl

/-- The freshly created link is a fixed point of the cleanup. -/
theorem cleanEnclosure_new (p : String) :
    cleanEnclosure { href := some p, rel := some "alternate", type := none }
      = { href := some p, rel := some "alternate", type := none } := rfl

/-- The rewritten link passes the alternate test. -/
theorem relAltOK_set (l : Link) (p : String) :
    relAltOK { l with href := some p, rel := some "alternate" } = true := rfl

/-- The keep-existing guard on the rewritten link is the substring test
on its new href. -/
theorem keepLink_set (l : Link) (p : String) :
    keepLink { l with href := some p, rel := some "alternate" }
      = strContains p "#entry" := by
  show (strContains p "#entry" && true) = strContains p "#entry"
  exact Bool.and_true _

/-- The keep-existing guard on the freshly created link is the substring
test on its href. -/
theorem keepLink_new (p : String) :
    keepLink { href := some p, rel := some "alternate", type := none }
      = strContains p "#entry" := by
  show (strContains p "#entry" && true) = strContains p "#entry"
  exact Bool.and_true _

/-- Every link produced by the rewrite loop from cleanup fixed points is
a cleanup fixed point. -/
theorem setFirstAlt_all_clean (ls : List Link) (p : String) :
    (∀ l ∈ ls, cleanEnclosure l = l) →
    ∀ l ∈ setFirstAlt ls p, cleanEnclosure l = l := by
  induction ls with
  | nil =>
    intro _ l hl
    simp [setFirstAlt] at hl
    subst hl
    exact cleanEnclosure_new p
  | cons x xs ih =>
    intro h l hl
    unfold setFirstAlt at hl
    split at hl
    · rcases List.mem_cons.mp hl with hc | hc
      · subst hc; exact cleanEnclosure_set x p
      · exact h l (List.mem_cons_of_mem x hc)
    · rcases List.mem_cons.mp hl with hc | hc
      · subst hc
        exact h _ (by simp)
      · exact ih (fun l2 hl2 => h l2 (by simp [hl2])) l hc

/-- Each link of the rewritten list carries either the preferred href or
an href already present. -/
theorem setFirstAlt_mem_href (ls : List Link) (p : String) :
    ∀ l2 ∈ setFirstAlt ls p, l2.href = some p ∨ ∃ l0 ∈ ls, l2.href = l0.href := by
  induction ls with
  | nil =>
    intro l2 h
    simp [setFirstAlt] at h
    subst h
    exact Or.inl rfl
  | cons x xs ih =>
    intro l2 h
    unfold setFirstAlt at h
    split at h
    · rcases List.mem_cons.mp h with hc | hc
      · subst hc; exact Or.inl rfl
      · exact Or.inr ⟨l2, List.mem_cons_of_mem x hc, rfl⟩
    · rcases List.mem_cons.mp h with hc | hc
      · subst hc; exact Or.inr ⟨l2, by simp, rfl⟩
      · rcases ih l2 hc with h2 | ⟨l0, hl0, h3⟩
        · exact Or.inl h2
        · exact Or.inr ⟨l0, by simp [hl0], h3⟩

/-- A preferred href containing `#entry` makes the rewritten list
trigger the keep-existing guard. -/
theorem setFirstAlt_any_keep_true (ls : List Link) (p : String)
    (hp : strContains p "#entry" = true) :
    (setFirstAlt ls p).any keepLink = true := by
  induction ls with
  | nil => simp [setFirstAlt, keepLink_new, hp]
  | cons x xs ih =>
    unfold setFirstAlt
    split
    · simp [keepLink_set, hp]
    · simp [ih]

/-- A guard-free list rewritten to a `#entry`-free preferred href stays
guard-free. -/
theorem setFirstAlt_any_keep_false (ls : List Link) (p : String)
    (hany : ls.any keepLink = false) (hp : strContains p "#entry" = false) :
    (setFirstAlt ls p).any keepLink = false := by
  induction ls with
  | nil => simp [setFirstAlt, keepLink_new, hp]
  | cons x xs ih =>
    simp only [List.any_cons, Bool.or_eq_false_iff] at hany
    unfold setFirstAlt
    split
    · simp [keepLink_set, hp, hany.2]
    · simp [hany.1, ih hany.2]

/-- The rewrite loop is a projection: applying it twice with the same
preferred href equals applying it once. -/
theorem setFirstAlt_fix (ls : List Link) (p : String) :
    setFirstAlt (setFirstAlt ls p) p = setFirstAlt ls p := by
  induction ls with
  | nil => rfl
  | cons x xs ih =>
    by_cases hx : relAltOK x = true
    · simp [setFirstAlt, hx, relAltOK_set]
    · have hx2 : relAltOK x = false := by
        cases hval : relAltOK x
        · rfl
        · exact absurd hval hx
      simp [setFirstAlt, hx2, ih]

/-- A literal is a prefix of itself followed by anything. -/
theorem startsWithL_append (n z : List Char) : startsWithL n (n ++ z) = true := by
  induction n with
  | nil => rfl
  | cons c cs ih => simp [startsWithL, ih]

/-- Substring containment survives prepending. -/
theorem containsL_of_right (a : List Char) {rest n : List Char}
    (h : containsL rest n = true) : containsL (a ++ rest) n = true := by
  induction a with
  | nil => simpa using h
  | cons c cs ih =>
    have hstep : containsL ((c :: cs) ++ rest) n
        = (startsWithL n ((c :: cs) ++ rest) || containsL (cs ++ rest) n) := rfl
    rw [hstep, ih]
    simp

/-- A list contains itself as a substring of any extension. -/
theorem containsL_self_append : ∀ (n z : List Char), containsL (n ++ z) n = true
  | [], z => by cases z <;> simp [containsL, startsWithL]
  | c :: cs, z => by
    simp only [List.cons_append, containsL]
    have h := startsWithL_append (c :: cs) z
    simp only [List.cons_append] at h
    rw [h]
    simp

/-- The preferred href with a fragment contains `#entry`. -/
theorem strContains_pref (d n : String) :
    strContains (d ++ "#entry" ++ n) "#entry" = true := by
  unfold strContains
  rw [String.data_append, String.data_append, List.append_assoc]
  exact containsL_of_right _ (containsL_self_append _ _)

/-- Extraction depends only on the id, the title and the links. -/
theorem extract_depends (e1 e2 : Entry) (h1 : e1.id = e2.id)
    (h2 : e1.title = e2.title) (h3 : e1.links = e2.links) :
    extract_entry_number e1 = extract_entry_number e2 := by
  unfold extract_entry_number candidates
  rw [h1, h2, h3]

/-- When no candidate of an entry matches and the docket URL matches no
pattern, the entry rewritten to the bare docket URL still has no
matching candidate. -/
theorem extract_none_setFirstAlt (e : Entry) (ls : List Link) (d : String)
    (hnone : extract_entry_number { e with links := ls } = none)
    (hd : tryPatterns d.data = none) :
    extract_entry_number { e with links := setFirstAlt ls d } = none := by
  cases e with
  | mk ei et ep eu el =>
    unfold extract_entry_number at hnone ⊢
    rw [extractLoop_eq_none_iff] at hnone ⊢
    intro t ht
    simp only [candidates] at ht hnone
    rcases List.mem_append.mp ht with h1 | h2
    · exact hnone t (List.mem_append.mpr (Or.inl h1))
    · obtain ⟨l2, hl2, hf⟩ := List.mem_filterMap.mp h2
      rcases setFirstAlt_mem_href ls d l2 hl2 with hh | ⟨l0, hl0, hh⟩
      · rw [hh] at hf
        have hf2 : (if (d == "") = true then none else some d) = some t := hf
        split at hf2
        · simp at hf2
        · injection hf2 with hf3
          subst hf3
          exact hd
      · rw [hh] at hf
        exact hnone t (List.mem_append.mpr (Or.inr (List.mem_filterMap.mpr ⟨l0, hl0, hf⟩)))

/-- An entry whose `updated` element is present and whose links the
second run leaves unchanged is a fixed point of the per-entry
normalisation. -/
theorem normaliseEntry_eq_self (cfg : Config) (now2 : String) (E : Entry)
    (hupd : E.updated.isSome = true)
    (hlinks : (normaliseEntry cfg now2 E).links = E.links) :
    normaliseEntry cfg now2 E = E :=
  Entry_eq_of_fields (normaliseEntry_id cfg now2 E) (normaliseEntry_title cfg now2 E)
    (normaliseEntry_published cfg now2 E)
    (by rw [normaliseEntry_updated, fillUpdated_of_isSome now2 E hupd])
    hlinks

/-- The per-entry normalisation is idempotent whenever the docket page
URL matches no extraction pattern and does not contain `#entry`. -/
theorem normaliseEntry_idem (cfg : Config) (now now2 : String) (e : Entry)
    (h1 : tryPatterns (docketHTML cfg).data = none)
    (h2 : strContains (docketHTML cfg) "#entry" = false) :
    normaliseEntry cfg now2 (normaliseEntry cfg now e) = normaliseEntry cfg now e := by
  have hupd1 : (normaliseEntry cfg now e).updated.isSome = true := by
    rw [normaliseEntry_updated]
    exact fillUpdated_updated_isSome now e
  apply normaliseEntry_eq_self cfg now2 _ hupd1
  rw [normaliseEntry_links]
  have hL1 := normaliseEntry_links cfg now e
  by_cases hk : (e.links.map cleanEnclosure).any keepLink = true
  · have hE1links : (normaliseEntry cfg now e).links = e.links.map cleanEnclosure := by
      rw [hL1, if_pos hk]
    rw [hE1links, map_clean_idem, if_pos hk]
  · have hE1links : (normaliseEntry cfg now e).links
        = setFirstAlt (e.links.map cleanEnclosure)
            (preferredHref cfg
              (extract_entry_number { e with links := e.links.map cleanEnclosure })) := by
      rw [hL1, if_neg hk]
    have hkf : (e.links.map cleanEnclosure).any keepLink = false := by
      cases hval : (e.links.map cleanEnclosure).any keepLink
      · rfl
      · exact absurd hval hk
    rw [hE1links]
    have hclean2 :
        (setFirstAlt (e.links.map cleanEnclosure)
            (preferredHref cfg
              (extract_entry_number { e with links := e.links.map cleanEnclosure }))).map
            cleanEnclosure
          = setFirstAlt (e.links.map cleanEnclosure)
              (preferredHref cfg
                (extract_entry_number { e with links := e.links.map cleanEnclosure })) :=
      map_clean_of_all_clean _
        (setFirstAlt_all_clean _ _ (all_clean_map e.links))
    rw [hclean2]
    cases hcase : extract_entry_number { e with links := e.links.map cleanEnclosure } with
    | some n =>
      have hkeep2 :
          (setFirstAlt (e.links.map cleanEnclosure)
              (preferredHref cfg (some n))).any keepLink = true := by
        apply setFirstAlt_any_keep_true
        show strContains (docketHTML cfg ++ "#entry" ++ n) "#entry" = true
        exact strContains_pref (docketHTML cfg) n
      rw [if_pos hkeep2]
    | none =>
      have hpref : preferredHref cfg (none : Option String) = docketHTML cfg := rfl
      rw [hpref]
      have hkeep2 :
          (setFirstAlt (e.links.map cleanEnclosure) (docketHTML cfg)).any keepLink
            = false := setFirstAlt_any_keep_false _ _ hkf h2
      rw [if_neg (by rw [hkeep2]; exact Bool.false_ne_true)]
      have hn2 : extract_entry_number
          { normaliseEntry cfg now e with
            links := setFirstAlt (e.links.map cleanEnclosure) (docketHTML cfg) }
            = none := by
        rw [extract_depends
            { normaliseEntry cfg now e with
              links := setFirstAlt (e.links.map cleanEnclosure) (docketHTML cfg) }
            { e with links := setFirstAlt (e.links.map cleanEnclosure) (docketHTML cfg) }
            (normaliseEntry_id cfg now e) (normaliseEntry_title cfg now e) rfl]
        exact extract_none_setFirstAlt e (e.links.map cleanEnclosure) (docketHTML cfg)
          hcase h1
      rw [hn2]
      show setFirstAlt _ (docketHTML cfg) = _
      exact setFirstAlt_fix (e.links.map cleanEnclosure) (docketHTML cfg)

/-! ## Claim C2 -/

/-- C2, counterexample.  `fC2` normalised once is an output of
`normalise_feed` with a self URL configured; normalising it again
inserts a second `rel="self"` feed-level link — the code adds a self
link unconditionally — so the result does not carry exactly one
self-referential link. -/
theorem c2_counterexample :
    countSelf (normalise_feed cfg0 "B" (normalise_feed cfg0 "A" fC2)).feedLinks
      = 2 := by decide

/-- C2, amended: re-running `normalise_feed` on its own output leaves
every entry — links, timestamps and all — unchanged (provided the
docket page URL matches no extraction pattern and does not contain
`#entry`, true of the real URL), but the feed-level self link is
duplicated rather than kept unique: each run prepends one more
`rel="self"` link when a nonempty self URL is configured. -/
theorem c2_amended (cfg : Config) (now now2 : String) (f : Feed)
    (h1 : tryPatterns (docketHTML cfg).data = none)
    (h2 : strContains (docketHTML cfg) "#entry" = false) :
    (normalise_feed cfg now2 (normalise_feed cfg now f)).entries
        = (normalise_feed cfg now f).entries
      ∧ ∀ u, cfg.selfURL = some u → u ≠ "" →
          (normalise_feed cfg now2 (normalise_feed cfg now f)).feedLinks
              = mkSelfLink u :: (normalise_feed cfg now f).feedLinks
            ∧ countSelf (normalise_feed cfg now2 (normalise_feed cfg now f)).feedLinks
              = countSelf (normalise_feed cfg now f).feedLinks + 1 := by
  constructor
  · rw [normalise_feed_entries, normalise_feed_entries cfg now f, List.map_map]
    apply List.map_congr_left
    intro e _
    simp only [Function.comp]
    exact normaliseEntry_idem cfg now now2 e h1 h2
  · intro u hu hune
    have hA : (normalise_feed cfg now2 (normalise_feed cfg now f)).feedLinks
        = mkSelfLink u :: (normalise_feed cfg now f).feedLinks := by
      rw [normalise_feed_feedLinks, hu]
      have hbe : (u == "") = false := by
        simp [hune]
      simp [hbe]
    refine ⟨hA, ?_⟩
    rw [hA]
    simp [countSelf, mkSelfLink]

/-- C2, witness: the amended theorem on a concrete one-entry feed with
the self URL configured. -/
theorem c2_witness :
    (normalise_feed cfg0 "B" (normalise_feed cfg0 "A" fC2w)).entries
        = (normalise_feed cfg0 "A" fC2w).entries
      ∧ (normalise_feed cfg0 "B" (normalise_feed cfg0 "A" fC2w)).feedLinks
          = mkSelfLink "https://e/f.xml" :: (normalise_feed cfg0 "A" fC2w).feedLinks
      ∧ countSelf (normalise_feed cfg0 "B" (normalise_feed cfg0 "A" fC2w)).feedLinks
          = countSelf (normalise_feed cfg0 "A" fC2w).feedLinks + 1 := by
  obtain ⟨hA, hB⟩ := c2_amended cfg0 "A" "B" fC2w (by decide) (by decide)
  obtain ⟨h3, h4⟩ := hB "https://e/f.xml" rfl (by decide)
  exact ⟨hA, h3, h4⟩

/-! ## Claim C7 -/

/-- C7, confirmed: the per-entry link step is exactly the claim's
description — if any link with relation `alternate`, `self` or unset
carries `#entry` in its href, the links are left as they are (after the
enclosure cleanup); otherwise the first link with relation `alternate`
or unset (a fresh one appended when none exists) gets its href set to
the docket page URL, with fragment `#entry<N>` when an entry number was
found and no fragment when none matched, and its relation set to
`alternate`. -/
theorem c7_thm (cfg : Config) (now : String) (e : Entry) :
    (normaliseEntry cfg now e).links
      = c7LinkStep cfg
          (extract_entry_number { e with links := e.links.map cleanEnclosure })
          (e.links.map cleanEnclosure) := by
  rw [normaliseEntry_links]
  simp only [c7LinkStep]
  by_cases hk : (e.links.map cleanEnclosure).any keepLink = true
  · rw [if_pos hk, if_pos hk]
  · rw [if_neg hk, if_neg hk, setFirstAlt_locate]
    unfold preferredHref
    split <;> rfl

/-! ## Claim C8 -/

/-- C8, confirmed: an enclosure link whose media type was the literal
`None` loses that attribute; an enclosure link with any other media type
keeps it unchanged (href and rel also unchanged, at the same index). -/
theorem c8_thm (cfg : Config) (now : String) (f : Feed) (j i : Nat)
    (e : Entry) (l : Link)
    (hj : f.entries[j]? = some e) (hi : e.links[i]? = some l)
    (hrel : l.rel = some "enclosure") :
    ∃ oe ol, (normalise_feed cfg now f).entries[j]? = some oe
      ∧ oe.links[i]? = some ol
      ∧ ol.type = (if l.type = some "None" then none else l.type)
      ∧ ol.rel = some "enclosure" ∧ ol.href = l.href := by
  have hcl : (e.links.map cleanEnclosure)[i]? = some (cleanEnclosure l) := by
    rw [List.getElem?_map, hi]; rfl
  have hAlt : relAltOK (cleanEnclosure l) = false := by
    rw [relAltOK_clean]
    simp [relAltOK, hrel]
  refine ⟨normaliseEntry cfg now e, cleanEnclosure l, ?_, ?_, ?_, ?_, ?_⟩
  · rw [normalise_feed_entries, List.getElem?_map, hj]; rfl
  · rw [normaliseEntry_links]
    split
    · exact hcl
    · exact setFirstAlt_getElem?_of_not_alt _ _ i (cleanEnclosure l) hcl hAlt
  · by_cases ht : l.type = some "None" <;> simp [cleanEnclosure, hrel, ht]
  · rw [cleanEnclosure_rel]; exact hrel
  · exact cleanEnclosure_href l

/-- C8, witness: the theorem applied to the concrete feed `fC8` whose
entry carries an enclosure link with media type `None`. -/
theorem c8_witness :
    ∃ oe ol, (normalise_feed cfg0 "2025-01-01T00:00:00Z" fC8).entries[0]? = some oe
      ∧ oe.links[0]? = some ol
      ∧ ol.type = (if lC8.type = some "None" then none else lC8.type)
      ∧ ol.rel = some "enclosure" ∧ ol.href = lC8.href :=
  c8_thm cfg0 "2025-01-01T00:00:00Z" fC8 0 0 eC8 lC8
    (by decide) (by decide) (by decide)

/-! ## Claim C10 -/

/-- C10, confirmed: the keep-existing guard fires on the substring
`#entry` anywhere in a non-enclosure link's href (relation `alternate`,
`self` or unset) — digits after it or a real fragment are not required —
and then the entry's links are left exactly as the enclosure cleanup
produced them, whatever entry number extraction would have computed. -/
theorem c10_thm (cfg : Config) (now : String) (e : Entry)
    (h : ∃ l ∈ e.links, strContains (l.href.getD "") "#entry" = true
        ∧ (l.rel = none ∨ l.rel = some "alternate" ∨ l.rel = some "self")) :
    (normaliseEntry cfg now e).links = e.links.map cleanEnclosure := by
  rw [normaliseEntry_links]
  have hk : (e.links.map cleanEnclosure).any keepLink = true := by
    rw [any_keepLink_map_clean]
    obtain ⟨l, hmem, hc, hrel⟩ := h
    refine List.any_eq_true.mpr ⟨l, hmem, ?_⟩
    rcases hrel with h1 | h1 | h1 <;> simp [keepLink, hc, h1]
  rw [if_pos hk]

/-- C10, witness: the guard link's href is `http://a/b#entryZ` — the
substring `#entry` is followed by no digit and is not an `#entry<N>`
anchor — while the title would yield the fresh entry number 7; the links
are nonetheless left unrewritten. -/
theorem c10_witness :
    (normaliseEntry cfg0 "2025-01-01T00:00:00Z" eC10).links
      = eC10.links.map cleanEnclosure :=
  c10_thm cfg0 "2025-01-01T00:00:00Z" eC10
    ⟨{ href := some "http://a/b#entryZ", rel := none, type := none },
      by decide, by decide, Or.inl rfl⟩
